import Mathlib

set_option maxRecDepth 100000

/-!
Verification of the pgsrv PostgreSQL wire-protocol server core.

The definitions below are a shallow embedding of the Go sources:
bytes are `Nat` (each value `< 256` on real wires), wire messages are
`List Nat`, Go maps are modelled as `String → Option _` functions or
as insertion lists, and fallible operations return `Option`/`Except`.
Machine-integer truncation is written explicitly as `% 2 ^ 32` where
the Go code narrows to `uint32`/`uint16`.
-/

namespace PgSrv

/-- A wire byte.  Go's `byte`. -/
abbrev Byte := Nat

/-- `protocol.Message` — "just an alias for a slice of bytes". -/
abbrev Message := List Byte

/-- `Message.Type` (protocol/message.go): first byte, or 0 if empty. -/
def Message.type (m : Message) : Byte :=
  match m with
  | [] => 0
  | b :: _ => b

/-- `Message.IsError` (protocol message helpers): the message is an
ErrorResponse iff its type byte is `'E'` (69). -/
def Message.isErrorMsg (m : Message) : Bool :=
  Message.type m == 69

/-- `protocol.ParseComplete` = `{'1', 0, 0, 0, 4}` ('1' = 49). -/
def parseCompleteMsg : Message := [49, 0, 0, 0, 4]

/-- `protocol.BindComplete` = `{'2', 0, 0, 0, 4}` ('2' = 50). -/
def bindCompleteMsg : Message := [50, 0, 0, 0, 4]

/-! ## C1: the extended-query transaction buffer (protocol/extend.go) -/

/-- `transaction.hasError` (protocol/extend.go): the outgoing buffer is
non-empty and its last message is an ErrorResponse. -/
def txnHasError (out : List Message) : Bool :=
  decide (0 < out.length) && (match out.getLast? with
    | some m => Message.isErrorMsg m
    | none => false)

/-- `transaction.Write` (protocol/extend.go): if `hasError` the write is
silently dropped, otherwise the message is appended to the buffer. -/
def txnWrite (out : List Message) (msg : Message) : List Message :=
  if txnHasError out then out else out ++ [msg]

/-- The buffer contents after a sequence of `transaction.Write` calls,
starting from the empty buffer a fresh transaction carries. -/
def txnWriteAll (msgs : List Message) : List Message :=
  msgs.foldl txnWrite []

/-- `transaction.flush` (protocol/extend.go): pop the buffer head and
write it to the wire until the buffer is empty.  `wire` accumulates the
bytes-on-the-wire in emission order (the no-IO-error run). -/
def txnFlush (out : List Message) (wire : List Message) : List Message :=
  match out with
  | [] => wire
  | m :: rest => txnFlush rest (wire ++ [m])

/-! ## C2: session transaction-state handling (session.go) -/

/-- `protocol.TransactionState` as reported by the transport to the
session after each frontend message. -/
inductive TransactionState where
  | notInTransaction
  | inTransaction
  | transactionEnded
  | transactionFailed
deriving DecidableEq, Repr

/-- The three per-session maps `handleTransactionState` manipulates:
live prepared statements, pending prepared statements, and portals.
`σ` is the prepared-statement payload, `π` the portal payload. -/
structure SessionMaps (σ π : Type) where
  stmts : String → Option σ
  pendingStmts : String → Option σ
  portals : String → Option π

/-- `session.handleTransactionState` (session.go): on TransactionEnded
every pending statement is copied into the live map (overwriting live
entries of the same name) and pending and portals are reset; on
TransactionFailed only the reset happens; all other states leave the
session untouched. -/
def handleTransactionState {σ π : Type} (state : TransactionState)
    (s : SessionMaps σ π) : SessionMaps σ π :=
  match state with
  | TransactionState.transactionEnded =>
      { stmts := fun k => match s.pendingStmts k with
          | some v => some v
          | none => s.stmts k
        pendingStmts := fun _ => none
        portals := fun _ => none }
  | TransactionState.transactionFailed =>
      { stmts := s.stmts
        pendingStmts := fun _ => none
        portals := fun _ => none }
  | _ => s

/-! ## C4: message framing codec (protocol/handshake.go, protocol/query.go) -/

/-- `binary.BigEndian.Uint32` on the first four bytes of a slice
(callers guarantee at least four bytes; shorter input, a Go panic,
yields 0 here and is always guarded against before use). -/
def be32 (b : List Byte) : Nat :=
  match b with
  | b0 :: b1 :: b2 :: b3 :: _ => ((b0 * 256 + b1) * 256 + b2) * 256 + b3
  | _ => 0

/-- `binary.BigEndian.PutUint32`: the four big-endian bytes of `n % 2^32`. -/
def putUint32 (n : Nat) : List Byte :=
  [n / 2 ^ 24 % 256, n / 2 ^ 16 % 256, n / 2 ^ 8 % 256, n % 256]

/-- `binary.BigEndian.PutUint16`: the two big-endian bytes of `n % 2^16`. -/
def putUint16 (n : Nat) : List Byte :=
  [n / 256 % 256, n % 256]

/-- `Handshake.readRawMessage` (protocol/handshake.go): read a 4-byte
big-endian length `n` (inclusive of itself), then `n - 4` further bytes;
the returned message is the length bytes followed by the body, paired
with the unconsumed remainder of the stream.  `none` models an IO error
(short stream) or the `res[4:]` panic when `n < 4`. -/
def readRawMessage (s : List Byte) : Option (Message × List Byte) :=
  if s.length < 4 then none
  else
    let lenB := s.take 4
    let rest := s.drop 4
    let n := be32 lenB
    if n < 4 then none
    else if rest.length < n - 4 then none
    else some (lenB ++ rest.take (n - 4), rest.drop (n - 4))

/-- `Handshake.readTypedMessage` (protocol/handshake.go): read one tag
byte, then a raw (length-prefixed) body, and return tag ++ body. -/
def readTypedMessage (s : List Byte) : Option (Message × List Byte) :=
  match s with
  | [] => none
  | t :: rest =>
    match readRawMessage rest with
    | some (body, r) => some (t :: body, r)
    | none => none

/-- The final `binary.BigEndian.PutUint32(msg[1:5], uint32(len(msg)-1))`
step every typed backend constructor performs: overwrite bytes 1..4
with the big-endian total length minus one (truncated to 32 bits). -/
def setMessageLength (m : Message) : Message :=
  m.take 1 ++ putUint32 ((m.length - 1) % 2 ^ 32) ++ m.drop 5

/-- The 4-byte big-endian length field of a typed message (bytes 1..4). -/
def typedLenField (m : Message) : Nat :=
  be32 ((m.drop 1).take 4)

/-- `protocol.TypesOid` (protocol/query.go): type name → OID; 0 for
names absent from the map (the Go zero value). -/
def typesOid (name : String) : Nat :=
  match name with
  | "BOOL" => 16
  | "BYTEA" => 17
  | "CHAR" => 18
  | "INT8" => 20
  | "INT2" => 21
  | "INT4" => 23
  | "TEXT" => 25
  | "JSON" => 114
  | "XML" => 142
  | "FLOAT4" => 700
  | "FLOAT8" => 701
  | "VARCHAR" => 1043
  | "DATE" => 1082
  | "TIME" => 1083
  | "TIMESTAMP" => 1114
  | "TIMESTAMPZ" => 1184
  | "INTERVAL" => 1186
  | "NUMERIC" => 1700
  | "JSONB" => 3802
  | "ANY" => 2276
  | _ => 0

/-- `protocol.CommandComplete` (protocol/query.go): `'C'` (67), length
placeholder, the NUL-terminated tag, then the length written last. -/
def commandComplete (tag : List Byte) : Message :=
  setMessageLength ([67, 0, 0, 0, 0] ++ tag ++ [0])

/-- `protocol.DataRow` (protocol/query.go): `'D'` (68), length
placeholder, 2-byte value count, then each value as a 4-byte length
followed by its bytes, then the length written last. -/
def dataRow (vals : List (List Byte)) : Message :=
  setMessageLength ([68, 0, 0, 0, 0] ++ putUint16 vals.length ++
    vals.flatMap (fun v => putUint32 v.length ++ v))

/-- One per-column field block of `protocol.RowDescription`: the
NUL-terminated name, 4 zero bytes (table OID), 2 zero bytes (attribute
number), the 4-byte type OID looked up from the declared type name
(defaulting to TEXT when the lookup yields 0), 2 zero bytes (type
size), 4 zero bytes (type modifier), 2 zero bytes (format code). -/
def rowDescField (c : List Byte) (ty : String) : List Byte :=
  c ++ [0] ++ [0, 0, 0, 0] ++ [0, 0] ++
    putUint32 (if typesOid ty = 0 then typesOid "TEXT" else typesOid ty) ++
    [0, 0] ++ [0, 0, 0, 0] ++ [0, 0]

/-- `protocol.RowDescription` (protocol/query.go): `'T'` (84), length
placeholder, 2-byte column count, the per-column field blocks, then the
length written last.  The Go loop indexes `types[i]` for each column,
so it is only defined (panic-free) when the two lists have equal
length; the embedding walks the zipped lists. -/
def rowDescription (cols : List (List Byte)) (types : List String) : Message :=
  setMessageLength ([84, 0, 0, 0, 0] ++ putUint16 cols.length ++
    (cols.zip types).flatMap (fun p => rowDescField p.1 p.2))

/-! ## C5: startup argument parsing (`Message.StartupArgs`) -/

/-- The `bytes.IndexByte` scan loop of `Message.StartupArgs`: walk the
buffer accumulating the current chunk in `cur`; each NUL terminator
emits the accumulated chunk; when the buffer runs out before a NUL is
found (`IndexByte` returns -1, or the buffer is empty) the loop stops
and the unterminated remainder is dropped. -/
def scanNul (buff cur : List Byte) : List (List Byte) :=
  match buff with
  | [] => []
  | b :: rest =>
    if b = 0 then cur :: scanNul rest []
    else scanNul rest (cur ++ [b])

/-- The pairing loop of `Message.StartupArgs`: `for i := 0; i <
len(strings)-1; i += 2` assigns `args[strings[i]] = strings[i+1]` —
even indexes are keys, odd are values, a trailing unpaired string is
dropped.  The result is the assignment sequence in order (the Go map
receives exactly these assignments, later duplicates overwriting). -/
def pairStrings (strings : List (List Byte)) : List (List Byte × List Byte) :=
  match strings with
  | k :: v :: rest => (k, v) :: pairStrings rest
  | _ => []

/-- `Message.StartupArgs`: reject typed messages, then scan `m[8:]`
(skipping length and version) for NUL-terminated strings and pair
them alternately.  `none` models the Go error return. -/
def startupArgs (m : Message) : Option (List (List Byte × List Byte)) :=
  if Message.type m ≠ 0 then none
  else some (pairStrings (scanNul (m.drop 8) []))

/-- Modelled from the spec's words for C5 (not from the source): pair
the scanned strings as `(key, value)` but stop at the first empty key
(the terminating double-NUL), returning only the pairs that precede
it.  Used only to compare the claim against the code's behaviour. -/
def claimPairs (strings : List (List Byte)) : List (List Byte × List Byte) :=
  match strings with
  | k :: v :: rest => if k = [] then [] else (k, v) :: claimPairs rest
  | _ => []

/-! ## C10: password extraction (auth.go) -/

/-- `extractPassword` (auth.go): `m[5 : len(m)-1]` — the password starts
after the 5-byte header (type + size) and lasts until the trailing NUL.
The Go slice expression is only in bounds when `5 ≤ len(m)-1`; `none`
models the out-of-range panic on shorter messages. -/
def extractPassword (m : Message) : Option (List Byte) :=
  if 5 ≤ m.length - 1 then some ((m.drop 5).take (m.length - 1 - 5)) else none

/-- The only guard `clearTextAuthenticator.authenticate` and
`md5Authenticator.authenticate` place before calling `extractPassword`:
the message's type byte must be `'p'` (112). -/
def passwordMsgGuard (m : Message) : Bool :=
  Message.type m == 112

/-! ## C3: simple-query ('Q') error handling (session.go) -/

/-- A Go error value as inspected by `protocol.ErrorResponse`: the
message string plus the optional `Code()` / `Severity()` capability
methods (absent on plain `fmt.Errorf` errors). -/
structure GoErr where
  msg : String
  code : Option String := none
  severity : Option String := none
deriving DecidableEq, Repr

/-- The SQLSTATE the `protocol.ErrorResponse` builder emits in the `C`
field: the error's `Code()` when the capability exists and is
non-empty, otherwise the default `XX000`. -/
def errorResponseCode (e : GoErr) : String :=
  if (e.code.getD "") = "" then "XX000" else e.code.getD ""

/-- The `err`-reassigning response write loop that ends
`session.handleFrontendMessage`: `for _, m := range res { err =
t.Write(m); ... }` — every successful write overwrites `err`, so a
non-empty response list clears the error the dispatch produced. -/
def writeLoopErr (res : List Message) (err0 : Option GoErr) : Option GoErr :=
  res.foldl (fun _ _ => (none : Option GoErr)) err0

/-- The `*pgproto3.Query` branch of `session.handleFrontendMessage`
(session.go): run `s.query`; if it returned an error, append
`protocol.ParseComplete` to the response list; then write the response
list through the transport.  `outcome` is the error returned by
`s.query` (`none` on success; `s.query` itself writes the row data
directly, so the response list is empty on success).  Returns the
messages this branch writes and the error `handleFrontendMessage`
returns. -/
def handleQueryMessage (outcome : Option GoErr) : List Message × Option GoErr :=
  let res : List Message :=
    match outcome with
    | some _ => [parseCompleteMsg]
    | none => []
  (res, writeLoopErr res outcome)

/-! ## C8: cancellation pid generation (session.go startUp) -/

/-- The pid-search loop of `session.startUp` (session.go):

`for s1, ok := allSessions.Load(pid); ok && s1 != nil; pid++ { s1, ok =
allSessions.Load(pid) }`

`occ pid` models `allSessions.Load(pid)` returning a live session.
Go's `for` checks the condition on the values loaded in the previous
body (or the init), so the body re-loads the current `pid`, and the
post-statement increments `pid` after the load whose result the next
condition check consumes.  `fuel` bounds the iteration count; `none`
means the fuel ran out before the loop exited. -/
def pidProbeLoop (occ : Nat → Bool) (fuel : Nat) (pid : Nat) (s1ok : Bool) :
    Option Nat :=
  match fuel with
  | 0 => none
  | fuel + 1 =>
    if s1ok then pidProbeLoop occ fuel (pid + 1) (occ pid)
    else some pid

/-- `session.startUp` pid generation after the initial random draw
`pid0`: initialize the loop with `allSessions.Load(pid0)` and run it;
the result is the pid under which `allSessions.Store(pid, s)` then
registers the session. -/
def generatePid (occ : Nat → Bool) (fuel pid0 : Nat) : Option Nat :=
  pidProbeLoop occ fuel pid0 (occ pid0)

/-! ## C7: Bind handling (session.go `session.bind`) -/

/-- The `portal` struct stored by `session.bind`: the source prepared
statement's name and the raw parameter values. -/
structure PortalData where
  srcPreparedStatement : String
  params : List (List Byte)
deriving DecidableEq, Repr

/-- `session.getPreparedStmt` (session.go): look the name up in the
pending map first, then in the live map. -/
def getPreparedStmt {σ π : Type} (s : SessionMaps σ π) (name : String) :
    Option σ :=
  match s.pendingStmts name with
  | some stmt => some stmt
  | none => s.stmts name

/-- The response messages `session.bind` produces, kept structural
because `protocol.ErrorResponse` serializes its field map in Go's
random map order. -/
inductive BindResponse where
  | errMsg (e : GoErr)
  | bindComplete
deriving DecidableEq, Repr

/-- The plain `fmt.Errorf("prepared statement %s not exist", ...)`
error `session.bind` builds: no Code() or Severity() capability. -/
def bindStmtNotExistErr (name : String) : GoErr :=
  { msg := "prepared statement " ++ name ++ " not exist" }

/-- `session.bind` (session.go): look up the source statement (pending
then live); if absent respond with a single ErrorResponse and leave the
session unchanged; otherwise store a portal holding the parameters
under the destination name (replacing any same-named portal) and
respond BindComplete. -/
def sessionBind {σ : Type} (s : SessionMaps σ PortalData)
    (srcPreparedStmt dstPortal : String) (parameters : List (List Byte)) :
    List BindResponse × SessionMaps σ PortalData :=
  match getPreparedStmt s srcPreparedStmt with
  | none => ([BindResponse.errMsg (bindStmtNotExistErr srcPreparedStmt)], s)
  | some _ =>
      ([BindResponse.bindComplete],
        { s with portals := fun k =>
            if k = dstPortal then
              some { srcPreparedStatement := srcPreparedStmt
                     params := parameters }
            else s.portals k })

/-! ## C9: CancelRequest handling (session.go startUp cancel branch) -/

/-- `binary.BigEndian.Uint16` on the first two bytes of a slice. -/
def be16 (b : List Byte) : Nat :=
  match b with
  | b0 :: b1 :: _ => b0 * 256 + b1
  | _ => 0

/-- Go's `int32(uint32)` conversion: reinterpret a 32-bit value as a
signed integer. -/
def toInt32 (n : Nat) : Int :=
  if n < 2 ^ 31 then (n : Int) else (n : Int) - 2 ^ 32

/-- `Message.StartupVersion`: `"major.minor"` from the two big-endian
16-bit integers at offsets 4 and 6; errors on typed messages. -/
def startupVersion (m : Message) : Option String :=
  if Message.type m ≠ 0 then none
  else some (toString (be16 (m.drop 4)) ++ "." ++ toString (be16 (m.drop 6)))

/-- `Message.IsCancel`: the startup version equals the magic
`"1234.5678"` (errors decode as the empty string). -/
def isCancel (m : Message) : Bool :=
  (startupVersion m).getD "" == "1234.5678"

/-- `Message.CancelKeyData`: for a cancel message, the big-endian
`int32`s at offsets 8..12 and 12..16 (pid, secret); error otherwise. -/
def cancelKeyData (m : Message) : Option (Int × Int) :=
  if isCancel m then some (toInt32 (be32 (m.drop 8)), toInt32 (be32 (m.drop 12)))
  else none

/-- `allSessions.Load(pid)` returning the stored session's `Secret`:
the registry as an association list from pid to secret. -/
def lookupSession (reg : List (Int × Int)) (pid : Int) : Option Int :=
  (reg.find? (fun p => p.1 == pid)).map (fun p => p.2)

/-- The cancel branch of `session.startUp` (session.go): look the pid
up in `allSessions`; if missing (or nil) cancel a freshly created dummy
context; if present and the stored secret matches, invoke the target
session's `CancelFunc`.  Returns whether the target's cancel hook was
invoked paired with the bytes written back to the requesting
connection — always none ("intentionally doesn't report success"). -/
def handleCancelRequest (reg : List (Int × Int)) (pid secret : Int) :
    Bool × List Byte :=
  match lookupSession reg pid with
  | none => (false, [])
  | some storedSecret => (storedSecret == secret, [])

/-! ## C6: MD5 authentication (auth.go)

The repository delegates hashing to Go's `crypto/md5` (an external
library).  `md5Sum` below models it from the MD5 specification
(RFC 1321) over byte lists, with 32-bit words as `Nat % 2^32`. -/

/-- Truncation to a 32-bit word. -/
def w32 (n : Nat) : Nat := n % 4294967296

/-- 32-bit modular addition. -/
def wadd (a b : Nat) : Nat := (a + b) % 4294967296

/-- 32-bit bitwise complement. -/
def w32not (a : Nat) : Nat := Nat.xor a 4294967295

/-- 32-bit left rotation. -/
def rotl32 (x s : Nat) : Nat :=
  Nat.lor (w32 (x <<< s)) (x >>> (32 - s))

/-- The MD5 sine-derived constant table. -/
def md5K : List Nat :=
  [0xd76aa478, 0xe8c7b756, 0x242070db, 0xc1bdceee,
   0xf57c0faf, 0x4787c62a, 0xa8304613, 0xfd469501,
   0x698098d8, 0x8b44f7af, 0xffff5bb1, 0x895cd7be,
   0x6b901122, 0xfd987193, 0xa679438e, 0x49b40821,
   0xf61e2562, 0xc040b340, 0x265e5a51, 0xe9b6c7aa,
   0xd62f105d, 0x02441453, 0xd8a1e681, 0xe7d3fbc8,
   0x21e1cde6, 0xc33707d6, 0xf4d50d87, 0x455a14ed,
   0xa9e3e905, 0xfcefa3f8, 0x676f02d9, 0x8d2a4c8a,
   0xfffa3942, 0x8771f681, 0x6d9d6122, 0xfde5380c,
   0xa4beea44, 0x4bdecfa9, 0xf6bb4b60, 0xbebfbc70,
   0x289b7ec6, 0xeaa127fa, 0xd4ef3085, 0x04881d05,
   0xd9d4d039, 0xe6db99e5, 0x1fa27cf8, 0xc4ac5665,
   0xf4292244, 0x432aff97, 0xab9423a7, 0xfc93a039,
   0x655b59c3, 0x8f0ccc92, 0xffeff47d, 0x85845dd1,
   0x6fa87e4f, 0xfe2ce6e0, 0xa3014314, 0x4e0811a1,
   0xf7537e82, 0xbd3af235, 0x2ad7d2bb, 0xeb86d391]

/-- The MD5 per-step rotation amounts. -/
def md5S : List Nat :=
  [7, 12, 17, 22, 7, 12, 17, 22, 7, 12, 17, 22, 7, 12, 17, 22,
   5, 9, 14, 20, 5, 9, 14, 20, 5, 9, 14, 20, 5, 9, 14, 20,
   4, 11, 16, 23, 4, 11, 16, 23, 4, 11, 16, 23, 4, 11, 16, 23,
   6, 10, 15, 21, 6, 10, 15, 21, 6, 10, 15, 21, 6, 10, 15, 21]

/-- The 64 MD5 steps over one block's message words `M`, starting at
step `i` with `cnt` steps remaining. -/
def md5Steps (M : List Nat) (i cnt a b c d : Nat) : Nat × Nat × Nat × Nat :=
  match cnt with
  | 0 => (a, b, c, d)
  | cnt + 1 =>
    let f :=
      if i < 16 then Nat.lor (Nat.land b c) (Nat.land (w32not b) d)
      else if i < 32 then Nat.lor (Nat.land d b) (Nat.land (w32not d) c)
      else if i < 48 then Nat.xor (Nat.xor b c) d
      else Nat.xor c (Nat.lor b (w32not d))
    let g :=
      if i < 16 then i
      else if i < 32 then (5 * i + 1) % 16
      else if i < 48 then (3 * i + 5) % 16
      else (7 * i) % 16
    let tmp := wadd (wadd (wadd a f) (md5K.getD i 0)) (M.getD g 0)
    let bNew := wadd b (rotl32 tmp (md5S.getD i 0))
    md5Steps M (i + 1) cnt d bNew b c

/-- A 64-byte block as 16 little-endian 32-bit words. -/
def leWords (b : List Byte) : List Nat :=
  match b with
  | b0 :: b1 :: b2 :: b3 :: rest =>
      (b0 + b1 * 256 + b2 * 65536 + b3 * 16777216) :: leWords rest
  | _ => []

/-- One MD5 block transformation added onto the running state. -/
def md5Block (st : Nat × Nat × Nat × Nat) (block : List Byte) :
    Nat × Nat × Nat × Nat :=
  let M := leWords block
  match md5Steps M 0 64 st.1 st.2.1 st.2.2.1 st.2.2.2 with
  | (a, b, c, d) =>
    (wadd st.1 a, wadd st.2.1 b, wadd st.2.2.1 c, wadd st.2.2.2 d)

/-- Process a padded input 64 bytes at a time (`fuel` bounds the block
count; the input length is always sufficient). -/
def md5ProcessAll (st : Nat × Nat × Nat × Nat) (l : List Byte) (fuel : Nat) :
    Nat × Nat × Nat × Nat :=
  match fuel with
  | 0 => st
  | fuel + 1 =>
    match l with
    | [] => st
    | _ => md5ProcessAll (md5Block st (l.take 64)) (l.drop 64) fuel

/-- Eight little-endian bytes of a 64-bit value. -/
def le64 (n : Nat) : List Byte :=
  [n % 256, n / 2 ^ 8 % 256, n / 2 ^ 16 % 256, n / 2 ^ 24 % 256,
   n / 2 ^ 32 % 256, n / 2 ^ 40 % 256, n / 2 ^ 48 % 256, n / 2 ^ 56 % 256]

/-- Four little-endian bytes of a 32-bit value. -/
def le32 (n : Nat) : List Byte :=
  [n % 256, n / 256 % 256, n / 65536 % 256, n / 16777216 % 256]

/-- MD5 padding: a 0x80 byte, zeros to 56 mod 64, then the bit length
as 8 little-endian bytes. -/
def md5Pad (msg : List Byte) : List Byte :=
  msg ++ [128] ++ List.replicate ((119 - msg.length % 64) % 64) 0 ++
    le64 (8 * msg.length)

/-- `md5.Sum`: the 16-byte MD5 digest. -/
def md5Sum (msg : List Byte) : List Byte :=
  let padded := md5Pad msg
  match md5ProcessAll (0x67452301, 0xefcdab89, 0x98badcfe, 0x10325476)
      padded padded.length with
  | (a, b, c, d) => le32 a ++ le32 b ++ le32 c ++ le32 d

/-- One lowercase hex digit (ASCII byte). -/
def hexDigit (n : Nat) : Byte := if n < 10 then 48 + n else 87 + n

/-- Go's `fmt.Sprintf("%x", bytes)` as ASCII bytes: two lowercase hex
digits per byte. -/
def lowerHex (bs : List Byte) : List Byte :=
  bs.flatMap (fun b => [hexDigit (b / 16), hexDigit (b % 16)])

/-- `md5ConstantPasswordProvider.getPassword` (auth.go): the stored
client-side form `md5(password ++ user)`. -/
def md5GetPassword (password user : List Byte) : List Byte :=
  md5Sum (password ++ user)

/-- `hashWithSalt` (auth.go): hex the stored hash, append the salt,
md5, hex again, and prefix the ASCII bytes `"md5"` (109,100,53). -/
def hashWithSalt (hash salt : List Byte) : List Byte :=
  [109, 100, 53] ++ lowerHex (md5Sum (lowerHex hash ++ salt))

/-- Modelled from the spec's words for C6:
`"md5" || lowerhex( md5( lowerhex( md5(password || username) ) || salt ) )`. -/
def specMd5Expected (user password salt : List Byte) : List Byte :=
  [109, 100, 53] ++ lowerHex (md5Sum (lowerHex (md5Sum (password ++ user)) ++ salt))

/-- The comparison `md5Authenticator.authenticate` performs once it
holds the client's password message: the type byte must be `'p'` and
the extracted password bytes must equal
`hashWithSalt(getPassword(user), salt)` exactly
(`bytes.Equal`). -/
def md5AuthAccepts (user password salt : List Byte) (m : Message) : Bool :=
  passwordMsgGuard m &&
    match extractPassword m with
    | some actual => actual == hashWithSalt (md5GetPassword password user) salt
    | none => false

/-- The 35 ASCII bytes `"md5aa3f8b87a934a45044e1fb2d9070cb80"`. -/
def md5ExpectedPostgresTest : List Byte :=
  [109, 100, 53,
   97, 97, 51, 102, 56, 98, 56, 55,
   97, 57, 51, 52, 97, 52, 53, 48,
   52, 52, 101, 49, 102, 98, 50, 100,
   57, 48, 55, 48, 99, 98, 56, 48]

/-- A session with empty statement and portal maps (C7 instances). -/
def emptySession : SessionMaps Unit PortalData :=
  SessionMaps.mk (fun _ => none) (fun _ => none) (fun _ => none)

/-- A session whose pending map holds the single statement "s1". -/
def s1Session : SessionMaps Unit PortalData :=
  SessionMaps.mk (fun _ => none) (fun k => if k = "s1" then some () else none)
    (fun _ => none)

/-! # Theorems -/

/-- C7 (amended): Bind.  The source statement is looked up in pending
then live; when absent the response is a single ErrorResponse whose
SQLSTATE is the generic `XX000` (a plain `fmt.Errorf` error carries no
Code(), so the 26000 of the claim is not what the code emits) and the
session — portals included — is unchanged; when present a portal
holding the parameter values is stored under the destination name,
replacing any same-named portal, and BindComplete is the response. -/
theorem bind_spec {σ : Type} (s : SessionMaps σ PortalData)
    (src dst : String) (params : List (List Byte)) :
    (getPreparedStmt s src =
      (match s.pendingStmts src with
        | some v => some v
        | none => s.stmts src)) ∧
    (getPreparedStmt s src = none →
      (sessionBind s src dst params).1 =
        [BindResponse.errMsg (bindStmtNotExistErr src)] ∧
      errorResponseCode (bindStmtNotExistErr src) = "XX000" ∧
      (sessionBind s src dst params).2 = s) ∧
    (∀ st, getPreparedStmt s src = some st →
      (sessionBind s src dst params).1 = [BindResponse.bindComplete] ∧
      (sessionBind s src dst params).2.portals dst =
        some { srcPreparedStatement := src, params := params } ∧
      (∀ k, k ≠ dst → (sessionBind s src dst params).2.portals k = s.portals k) ∧
      (sessionBind s src dst params).2.stmts = s.stmts ∧
      (sessionBind s src dst params).2.pendingStmts = s.pendingStmts) := by
  refine ⟨rfl, ?_, ?_⟩
  · intro hnone
    unfold sessionBind
    rw [hnone]
    exact ⟨rfl, rfl, rfl⟩
  · intro st hsome
    unfold sessionBind
    rw [hsome]
    refine ⟨rfl, by simp, ?_, rfl, rfl⟩
    intro k hk
    simp [hk]

/-- Witness for C7 (amended): a session with no statements rejects
Bind with the XX000 error and an unchanged portal map; a session whose
pending map holds `"s1"` binds the unnamed portal. -/
theorem bind_spec_witness :
    (sessionBind emptySession "foo" "" []).1 =
      [BindResponse.errMsg (bindStmtNotExistErr "foo")] ∧
    errorResponseCode (bindStmtNotExistErr "foo") = "XX000" ∧
    (sessionBind emptySession "foo" "" []).2 = emptySession ∧
    (sessionBind s1Session "s1" "" [[49]]).1 = [BindResponse.bindComplete] ∧
    (sessionBind s1Session "s1" "" [[49]]).2.portals "" =
      some { srcPreparedStatement := "s1", params := [[49]] } := by
  refine ⟨?_, ?_, ?_, ?_, ?_⟩
  · exact ((bind_spec emptySession "foo" "" []).2.1 rfl).1
  · exact ((bind_spec emptySession "foo" "" []).2.1 rfl).2.1
  · exact ((bind_spec emptySession "foo" "" []).2.1 rfl).2.2
  · exact ((bind_spec s1Session "s1" "" [[49]]).2.2 () rfl).1
  · exact ((bind_spec s1Session "s1" "" [[49]]).2.2 () rfl).2.1

/-- C7 counterexample: on a session with no prepared statements, Bind
for the absent statement `"foo"` responds with an ErrorResponse whose
SQLSTATE is `XX000`, not the 26000 the claim states. -/
theorem bind_sqlstate_counterexample :
    (sessionBind emptySession "foo" "" []).1 =
      [BindResponse.errMsg (bindStmtNotExistErr "foo")] ∧
    errorResponseCode (bindStmtNotExistErr "foo") = "XX000" ∧
    errorResponseCode (bindStmtNotExistErr "foo") ≠ "26000" := by
  refine ⟨rfl, rfl, by decide⟩

theorem scanNul_no_nul (tail : List Byte) (htail : ∀ b ∈ tail, b ≠ 0) :
    ∀ cur, scanNul tail cur = [] := by
  induction tail with
  | nil => intro cur; rfl
  | cons b rest ih =>
      intro cur
      rw [scanNul]
      rw [if_neg (htail b (by simp))]
      exact ih (fun x hx => htail x (by simp [hx])) _

theorem scanNul_chunk (c : List Byte) (hc : ∀ b ∈ c, b ≠ 0) :
    ∀ (cur rest : List Byte),
      scanNul (c ++ 0 :: rest) cur = (cur ++ c) :: scanNul rest [] := by
  induction c with
  | nil => intro cur rest; simp [scanNul]
  | cons b c' ih =>
      intro cur rest
      rw [List.cons_append, scanNul, if_neg (hc b (by simp))]
      rw [ih (fun x hx => hc x (by simp [hx])) _ _]
      simp

theorem scanNul_join (ss : List (List Byte)) (tail : List Byte)
    (hss : ∀ c ∈ ss, ∀ b ∈ c, b ≠ 0) (htail : ∀ b ∈ tail, b ≠ 0) :
    scanNul (ss.flatMap (fun c => c ++ [0]) ++ tail) [] = ss := by
  induction ss with
  | nil => simpa using scanNul_no_nul tail htail []
  | cons c rest ih =>
      have hchunk := scanNul_chunk c (hss c (by simp)) []
        (rest.flatMap (fun x => x ++ [0]) ++ tail)
      simp only [List.nil_append] at hchunk
      rw [List.flatMap_cons, List.append_assoc, List.append_assoc,
        List.singleton_append, hchunk, ih (fun x hx => hss x (by simp [hx]))]

theorem startupArgs_amended (h : List Byte) (ss : List (List Byte))
    (tail : List Byte) (hh : h.length = 7)
    (hss : ∀ c ∈ ss, ∀ b ∈ c, b ≠ 0) (htail : ∀ b ∈ tail, b ≠ 0) :
    startupArgs ((0 :: h) ++ ss.flatMap (fun c => c ++ [0]) ++ tail) =
      some (pairStrings ss) := by
  unfold startupArgs
  rw [if_neg (by simp [Message.type])]
  have hdrop : ((0 :: h) ++ ss.flatMap (fun c => c ++ [0]) ++ tail).drop 8 =
      ss.flatMap (fun c => c ++ [0]) ++ tail := by
    rw [List.append_assoc, List.drop_append_of_le_length (by simp [hh])]
    rw [List.drop_eq_nil_of_le (by simp [hh]), List.nil_append]
  rw [hdrop, scanNul_join ss tail hss htail]

/-- C5 counterexample: on the startup message whose payload after the
8-byte header is `"a\x00b\x00\x00x\x00y\x00"`, `StartupArgs` keeps
scanning past the double-NUL and produces a second map entry
`("", "x")`, whereas the claim says the pairs stop at the first empty
key and bytes after the double-NUL contribute nothing. -/
theorem startupArgs_claim_counterexample :
    startupArgs ([0, 0, 0, 17, 0, 3, 0, 0] ++ [97, 0, 98, 0, 0, 120, 0, 121, 0]) =
      some [([97], [98]), ([], [120])] ∧
    claimPairs (scanNul (([0, 0, 0, 17, 0, 3, 0, 0] ++
        [97, 0, 98, 0, 0, 120, 0, 121, 0]).drop 8) []) = [([97], [98])] ∧
    startupArgs ([0, 0, 0, 17, 0, 3, 0, 0] ++ [97, 0, 98, 0, 0, 120, 0, 121, 0]) ≠
      some (claimPairs (scanNul (([0, 0, 0, 17, 0, 3, 0, 0] ++
        [97, 0, 98, 0, 0, 120, 0, 121, 0]).drop 8) [])) := by
  refine ⟨by decide, by decide, by decide⟩

/-- C5 (amended): `StartupArgs` scans the whole of `m[8:]` for
NUL-terminated strings — it does not stop at the first empty key, so
bytes after the double-NUL can contribute further entries — pairs the
strings alternately (even index key, odd index value, a trailing
unpaired string dropped), and errors on a typed message.  For every
payload made of NUL-terminated NUL-free chunks followed by NUL-free
trailing bytes, it returns exactly the alternate pairing of the
chunks; and a message whose type byte is non-zero yields an error. -/
theorem startupArgs_spec :
    (∀ (h : List Byte) (ss : List (List Byte)) (tail : List Byte),
      h.length = 7 →
      (∀ c ∈ ss, ∀ b ∈ c, b ≠ 0) →
      (∀ b ∈ tail, b ≠ 0) →
      startupArgs ((0 :: h) ++ ss.flatMap (fun c => c ++ [0]) ++ tail) =
        some (pairStrings ss)) ∧
    (∀ m : Message, Message.type m ≠ 0 → startupArgs m = none) := by
  refine ⟨startupArgs_amended, ?_⟩
  intro m hm
  unfold startupArgs
  rw [if_pos hm]

/-- Witness for C5 (amended) at the concrete payload
`"user\x00postgres\x00\x00"` plus a typed message. -/
theorem startupArgs_spec_witness :
    startupArgs ((0 :: [0, 0, 29, 0, 3, 0, 0]) ++
      ([[117, 115, 101, 114], [112, 111, 115, 116, 103, 114, 101, 115]].flatMap
        (fun c => c ++ [0])) ++ []) =
      some (pairStrings [[117, 115, 101, 114], [112, 111, 115, 116, 103, 114, 101, 115]]) ∧
    startupArgs [112, 0, 0, 0, 5] = none := by
  constructor
  · exact startupArgs_spec.1 [0, 0, 29, 0, 3, 0, 0]
      [[117, 115, 101, 114], [112, 111, 115, 116, 103, 114, 101, 115]] []
      (by decide) (by decide) (by decide)
  · exact startupArgs_spec.2 [112, 0, 0, 0, 5] (by decide)

theorem be32_putUint32 (n : Nat) : be32 (putUint32 n) = n % 2 ^ 32 := by
  simp only [be32, putUint32]
  omega

theorem putUint32_length (n : Nat) : (putUint32 n).length = 4 := rfl

theorem setMessageLength_length (m : Message) (h : 5 ≤ m.length) :
    (setMessageLength m).length = m.length := by
  simp only [setMessageLength, List.length_append, List.length_take,
    List.length_drop, putUint32_length]
  omega

theorem typedLenField_setMessageLength (m : Message) (h : 1 ≤ m.length) :
    typedLenField (setMessageLength m) = (m.length - 1) % 2 ^ 32 := by
  obtain ⟨b, rest, rfl⟩ : ∃ b rest, m = b :: rest := by
    cases m with
    | nil => simp at h
    | cons b rest => exact ⟨b, rest, rfl⟩
  have hstep : setMessageLength (b :: rest) =
      b :: (putUint32 (((b :: rest).length - 1) % 2 ^ 32) ++ rest.drop 4) := by
    simp [setMessageLength]
  rw [typedLenField, hstep]
  simp only [List.drop_succ_cons, List.drop_zero]
  rw [List.take_append_of_le_length (by rw [putUint32_length]),
    List.take_of_length_le (by rw [putUint32_length]), be32_putUint32]
  omega

theorem readRawMessage_roundtrip (m k : List Byte) (hlen : 4 ≤ m.length)
    (hfield : be32 (m.take 4) = m.length) :
    readRawMessage (m ++ k) = some (m, k) := by
  unfold readRawMessage
  have h1 : ¬ (m ++ k).length < 4 := by
    simp only [List.length_append]; omega
  rw [if_neg h1]
  have htake : (m ++ k).take 4 = m.take 4 := List.take_append_of_le_length hlen
  have hdrop : (m ++ k).drop 4 = m.drop 4 ++ k := List.drop_append_of_le_length hlen
  simp only [htake, hdrop, hfield]
  have h2 : ¬ m.length < 4 := by omega
  rw [if_neg h2]
  have hdlen : (m.drop 4).length = m.length - 4 := List.length_drop 4 m
  have h3 : ¬ (m.drop 4 ++ k).length < m.length - 4 := by
    simp only [List.length_append, hdlen]; omega
  rw [if_neg h3]
  have h4 : (m.drop 4 ++ k).take (m.length - 4) = m.drop 4 := by
    rw [List.take_append_of_le_length (by omega), List.take_of_length_le (by omega)]
  have h5 : (m.drop 4 ++ k).drop (m.length - 4) = k := by
    rw [List.drop_append_of_le_length (by omega), List.drop_eq_nil_of_le (by omega),
      List.nil_append]
  rw [h4, h5, List.take_append_drop]

theorem readTypedMessage_roundtrip (m k : List Byte) (hlen : 5 ≤ m.length)
    (hfield : typedLenField m = m.length - 1) :
    readTypedMessage (m ++ k) = some (m, k) := by
  obtain ⟨b, rest, rfl⟩ : ∃ b rest, m = b :: rest := by
    cases m with
    | nil => simp at hlen
    | cons b rest => exact ⟨b, rest, rfl⟩
  simp only [List.cons_append, readTypedMessage]
  have hr : readRawMessage (rest ++ k) = some (rest, k) := by
    apply readRawMessage_roundtrip
    · simp only [List.length_cons] at hlen; omega
    · simpa only [typedLenField, List.drop_succ_cons, List.drop_zero,
        List.length_cons, Nat.add_sub_cancel] using hfield
  rw [hr]

/-- C4: codec framing round-trip and constructor length fields.  (1) An
untyped message whose leading 4-byte big-endian length field equals its
total length is returned identically by the raw reader (with the rest
of the stream untouched); (2) a typed message whose length field at
bytes 1..4 equals its total length minus 1 is returned identically by
the typed reader; (3,4,5) the `CommandComplete`, `DataRow` and
`RowDescription` constructors each produce a message whose length field
equals its total byte length minus 1 (whenever that quantity fits in 32
bits; `RowDescription` requires the column and type lists to pair up,
as the Go loop indexes both with one index). -/
theorem codec_framing_roundtrip :
    (∀ m k : List Byte, 4 ≤ m.length → be32 (m.take 4) = m.length →
      readRawMessage (m ++ k) = some (m, k)) ∧
    (∀ m k : List Byte, 5 ≤ m.length → typedLenField m = m.length - 1 →
      readTypedMessage (m ++ k) = some (m, k)) ∧
    (∀ tag : List Byte, (commandComplete tag).length - 1 < 2 ^ 32 →
      typedLenField (commandComplete tag) = (commandComplete tag).length - 1) ∧
    (∀ vals : List (List Byte), (dataRow vals).length - 1 < 2 ^ 32 →
      typedLenField (dataRow vals) = (dataRow vals).length - 1) ∧
    (∀ (cols : List (List Byte)) (types : List String),
      (rowDescription cols types).length - 1 < 2 ^ 32 →
      typedLenField (rowDescription cols types) =
        (rowDescription cols types).length - 1) := by
  refine ⟨readRawMessage_roundtrip, readTypedMessage_roundtrip, ?_, ?_, ?_⟩
  · intro tag hsz
    unfold commandComplete at hsz ⊢
    have hraw : 5 ≤ ([67, 0, 0, 0, 0] ++ tag ++ [0] : List Byte).length := by
      simp
    rw [setMessageLength_length _ hraw] at hsz ⊢
    rw [typedLenField_setMessageLength _ (by omega)]
    exact Nat.mod_eq_of_lt hsz
  · intro vals hsz
    unfold dataRow at hsz ⊢
    have hraw : 5 ≤ ([68, 0, 0, 0, 0] ++ putUint16 vals.length ++
        vals.flatMap (fun v => putUint32 v.length ++ v) : List Byte).length := by
      simp [putUint16]
    rw [setMessageLength_length _ hraw] at hsz ⊢
    rw [typedLenField_setMessageLength _ (by omega)]
    exact Nat.mod_eq_of_lt hsz
  · intro cols types hsz
    unfold rowDescription at hsz ⊢
    have hraw : 5 ≤ ([84, 0, 0, 0, 0] ++ putUint16 cols.length ++
        (cols.zip types).flatMap (fun p => rowDescField p.1 p.2) : List Byte).length := by
      simp [putUint16]
    rw [setMessageLength_length _ hraw] at hsz ⊢
    rw [typedLenField_setMessageLength _ (by omega)]
    exact Nat.mod_eq_of_lt hsz

/-- Witness for C4 at concrete inputs: a 5-byte untyped message, a
6-byte Query message, and concrete CommandComplete/DataRow/
RowDescription messages. -/
theorem codec_framing_roundtrip_witness :
    readRawMessage ([0, 0, 0, 5, 7] ++ [9]) = some ([0, 0, 0, 5, 7], [9]) ∧
    readTypedMessage ([81, 0, 0, 0, 5, 65] ++ [66]) =
      some ([81, 0, 0, 0, 5, 65], [66]) ∧
    typedLenField (commandComplete [83, 69, 84]) =
      (commandComplete [83, 69, 84]).length - 1 ∧
    typedLenField (dataRow [[49]]) = (dataRow [[49]]).length - 1 ∧
    typedLenField (rowDescription [[97]] ["BOOL"]) =
      (rowDescription [[97]] ["BOOL"]).length - 1 := by
  refine ⟨?_, ?_, ?_, ?_, ?_⟩
  · exact codec_framing_roundtrip.1 [0, 0, 0, 5, 7] [9] (by decide) (by decide)
  · exact codec_framing_roundtrip.2.1 [81, 0, 0, 0, 5, 65] [66] (by decide) (by decide)
  · exact codec_framing_roundtrip.2.2.1 [83, 69, 84] (by decide)
  · exact codec_framing_roundtrip.2.2.2.1 [[49]] (by decide)
  · exact codec_framing_roundtrip.2.2.2.2 [[97]] ["BOOL"] (by decide)

theorem txnWriteAll_append (msgs : List Message) (m : Message) :
    txnWriteAll (msgs ++ [m]) = txnWrite (txnWriteAll msgs) m := by
  unfold txnWriteAll
  rw [List.foldl_append]
  rfl

theorem txnFlush_eq (out wire : List Message) :
    txnFlush out wire = wire ++ out := by
  induction out generalizing wire with
  | nil => simp [txnFlush]
  | cons m rest ih =>
      rw [txnFlush, ih]
      simp

/-- Structural invariant of the buffer produced by any write sequence:
every message before the last one is not an ErrorResponse. -/
theorem txnWriteAll_dropLast_no_error (msgs : List Message) :
    ∀ m ∈ (txnWriteAll msgs).dropLast, Message.isErrorMsg m = false := by
  induction msgs using List.reverseRecOn with
  | nil => intro m hm; simp [txnWriteAll] at hm
  | append_singleton msgs last ih =>
      intro m hm
      rw [txnWriteAll_append] at hm
      unfold txnWrite at hm
      by_cases h : txnHasError (txnWriteAll msgs)
      · rw [if_pos h] at hm
        exact ih m hm
      · rw [if_neg h] at hm
        rw [List.dropLast_concat] at hm
        -- m is in the old buffer, which has no error at its last
        -- position either (txnHasError is false), hence nowhere.
        rcases List.eq_nil_or_concat (txnWriteAll msgs) with hnil | ⟨pre, lst, hsplit⟩
        <;> try rw [List.concat_eq_append] at hsplit
        · rw [hnil] at hm; simp at hm
        · rw [hsplit] at hm
          rcases List.mem_append.mp hm with hpre | hlast
          · have := ih m
            rw [hsplit, List.dropLast_concat] at this
            exact this hpre
          · have hlst : m = lst := by simpa using hlast
            subst hlst
            unfold txnHasError at h
            rw [hsplit] at h
            simp only [Bool.and_eq_true, decide_eq_true_eq] at h
            rcases Bool.eq_false_iff.mpr (fun hc => h ⟨by simp, by
              rw [List.getLast?_concat]; exact hc⟩) with _
            by_cases hc : Message.isErrorMsg m
            · exact absurd ⟨by simp, by rw [List.getLast?_concat]; exact hc⟩ h
            · exact Bool.eq_false_iff.mpr hc

/-- hasError after a write sequence is exactly "some buffered message is
an ErrorResponse". -/
theorem txnWriteAll_hasError_iff (msgs : List Message) :
    txnHasError (txnWriteAll msgs) = true ↔
      ∃ m ∈ txnWriteAll msgs, Message.isErrorMsg m = true := by
  constructor
  · intro h
    unfold txnHasError at h
    simp only [Bool.and_eq_true, decide_eq_true_eq] at h
    rcases h with ⟨hlen, hlast⟩
    rcases List.eq_nil_or_concat (txnWriteAll msgs) with hnil | ⟨pre, lst, hsplit⟩
        <;> try rw [List.concat_eq_append] at hsplit
    · rw [hnil] at hlen; simp at hlen
    · rw [hsplit] at hlast ⊢
      rw [List.getLast?_concat] at hlast
      exact ⟨lst, by simp, hlast⟩
  · intro ⟨m, hmem, herr⟩
    rcases List.eq_nil_or_concat (txnWriteAll msgs) with hnil | ⟨pre, lst, hsplit⟩
        <;> try rw [List.concat_eq_append] at hsplit
    · rw [hnil] at hmem; simp at hmem
    · unfold txnHasError
      rw [hsplit]
      simp only [Bool.and_eq_true, decide_eq_true_eq]
      refine ⟨by simp, ?_⟩
      rw [List.getLast?_concat]
      simp only [Option.some.injEq]
      -- m is either in the prefix (impossible: prefix = dropLast has no
      -- errors) or is the last element.
      rw [hsplit] at hmem
      rcases List.mem_append.mp hmem with hpre | hlast
      · have hno := txnWriteAll_dropLast_no_error msgs m
        rw [hsplit, List.dropLast_concat] at hno
        rw [hno hpre] at herr
        exact absurd herr (by simp)
      · have : m = lst := by simpa using hlast
        rw [← this]
        exact herr

/-- C1: Extended-query transaction buffer discipline.  For every
sequence of writes into an open extended-query transaction: (1) no
buffered message strictly before the last is an ErrorResponse (so
nothing ever follows a buffered ErrorResponse, and at most one
ErrorResponse is buffered); (2) `hasError` is true exactly when an
ErrorResponse has been buffered; (3) `flush` emits the buffered
messages to the wire in the order they were written; hence (4) the
flushed output contains at most one ErrorResponse and no message
after it. -/
theorem extended_txn_buffer_discipline (msgs : List Message) :
    (∀ m ∈ (txnWriteAll msgs).dropLast, Message.isErrorMsg m = false) ∧
    (txnHasError (txnWriteAll msgs) = true ↔
      ∃ m ∈ txnWriteAll msgs, Message.isErrorMsg m = true) ∧
    txnFlush (txnWriteAll msgs) [] = txnWriteAll msgs ∧
    (txnFlush (txnWriteAll msgs) []).countP
        (fun m => Message.isErrorMsg m) ≤ 1 := by
  refine ⟨txnWriteAll_dropLast_no_error msgs, txnWriteAll_hasError_iff msgs,
    by rw [txnFlush_eq]; simp, ?_⟩
  rw [txnFlush_eq, List.nil_append]
  rcases List.eq_nil_or_concat (txnWriteAll msgs) with hnil | ⟨pre, lst, hsplit⟩
        <;> try rw [List.concat_eq_append] at hsplit
  · rw [hnil]; simp
  · rw [hsplit, List.countP_append]
    have hpre : pre.countP (fun m => Message.isErrorMsg m) = 0 := by
      rw [List.countP_eq_zero]
      intro m hm
      have hno := txnWriteAll_dropLast_no_error msgs m
      rw [hsplit, List.dropLast_concat] at hno
      simp [hno hm]
    rw [hpre]
    have : (([lst] : List Message).countP (fun m => Message.isErrorMsg m)) ≤ 1 := by
      simp [List.countP_cons]
      split <;> simp
    omega

/-- C2: `handleTransactionState`.  TransactionEnded copies every pending
prepared statement into the live map (pending wins on name clashes) and
resets pending and portals; TransactionFailed resets pending and portals
and leaves the live map untouched; NotInTransaction and InTransaction
change none of the three maps. -/
theorem handleTransactionState_spec {σ π : Type} (s : SessionMaps σ π)
    (k : String) :
    ((handleTransactionState TransactionState.transactionEnded s).stmts k =
        (match s.pendingStmts k with
          | some v => some v
          | none => s.stmts k) ∧
      (handleTransactionState TransactionState.transactionEnded s).pendingStmts k = none ∧
      (handleTransactionState TransactionState.transactionEnded s).portals k = none) ∧
    ((handleTransactionState TransactionState.transactionFailed s).stmts k = s.stmts k ∧
      (handleTransactionState TransactionState.transactionFailed s).pendingStmts k = none ∧
      (handleTransactionState TransactionState.transactionFailed s).portals k = none) ∧
    handleTransactionState TransactionState.notInTransaction s = s ∧
    handleTransactionState TransactionState.inTransaction s = s := by
  refine ⟨⟨rfl, rfl, rfl⟩, ⟨rfl, rfl, rfl⟩, rfl, rfl⟩

/-- C9: cancellation semantics.  The target's cancel hook is invoked
iff the registry holds an entry for the pid whose stored secret equals
the request's secret; an absent pid or a differing secret leaves every
session untouched; no reply bytes are ever written to the requesting
connection.  In addition `CancelKeyData` decodes the pid and secret a
cancel-request wire message carries at offsets 8..12 and 12..16. -/
theorem cancel_request_semantics :
    (∀ (reg : List (Int × Int)) (pid secret : Int),
      ((handleCancelRequest reg pid secret).1 = true ↔
        lookupSession reg pid = some secret) ∧
      (handleCancelRequest reg pid secret).2 = []) ∧
    (∀ pid secret : Nat, pid < 2 ^ 32 → secret < 2 ^ 32 →
      cancelKeyData ([0, 0, 0, 16, 4, 210, 22, 46] ++
          putUint32 pid ++ putUint32 secret) =
        some (toInt32 pid, toInt32 secret)) := by
  constructor
  · intro reg pid secret
    constructor
    · unfold handleCancelRequest
      cases h : lookupSession reg pid with
      | none => simp [h]
      | some stored =>
          simp [h]
    · unfold handleCancelRequest
      cases lookupSession reg pid <;> rfl
  · intro pid secret hpid hsecret
    unfold cancelKeyData
    have hc : isCancel ([0, 0, 0, 16, 4, 210, 22, 46] ++
        putUint32 pid ++ putUint32 secret) = true := by
      simp only [isCancel, startupVersion, Message.type, be16, List.cons_append,
        List.nil_append, List.drop_succ_cons, List.drop_zero, ne_eq,
        Option.getD_some]
      norm_num
      decide
    rw [if_pos hc]
    have hd8 : (([0, 0, 0, 16, 4, 210, 22, 46] ++ putUint32 pid ++
        putUint32 secret : List Byte)).drop 8 = putUint32 pid ++ putUint32 secret := by
      rw [List.append_assoc, List.drop_append_of_le_length (by simp),
        List.drop_eq_nil_of_le (by simp), List.nil_append]
    have hd12 : (([0, 0, 0, 16, 4, 210, 22, 46] ++ putUint32 pid ++
        putUint32 secret : List Byte)).drop 12 = putUint32 secret := by
      rw [List.append_assoc, List.drop_append_eq_append_drop]
      simp [putUint32]
    rw [hd8, hd12]
    have hbe : be32 (putUint32 pid ++ putUint32 secret) = pid := by
      have : be32 (putUint32 pid ++ putUint32 secret) = be32 (putUint32 pid) := by
        simp [putUint32, be32]
      rw [this, be32_putUint32, Nat.mod_eq_of_lt hpid]
    rw [hbe, be32_putUint32, Nat.mod_eq_of_lt hsecret]

/-- Witness for C9: the registry holding pid 7 with secret 42 fires on
(7, 42); and `CancelKeyData` decodes (7, 42) from the wire form. -/
theorem cancel_request_semantics_witness :
    ((handleCancelRequest [((7 : Int), (42 : Int))] 7 42).1 = true ↔
      lookupSession [((7 : Int), (42 : Int))] 7 = some 42) ∧
    (handleCancelRequest [((7 : Int), (42 : Int))] 7 42).2 = [] ∧
    cancelKeyData ([0, 0, 0, 16, 4, 210, 22, 46] ++
        putUint32 7 ++ putUint32 42) = some (toInt32 7, toInt32 42) := by
  refine ⟨(cancel_request_semantics.1 [((7 : Int), (42 : Int))] 7 42).1,
    (cancel_request_semantics.1 [((7 : Int), (42 : Int))] 7 42).2,
    cancel_request_semantics.2 7 42 (by decide) (by decide)⟩

theorem extractPassword_concat (hdr pw : List Byte) (b : Byte)
    (hh : hdr.length = 5) :
    extractPassword (hdr ++ pw ++ [b]) = some pw := by
  unfold extractPassword
  have hlen : (hdr ++ pw ++ [b]).length = pw.length + 6 := by
    simp [hh]; omega
  rw [if_pos (by omega)]
  congr 1
  rw [List.append_assoc, List.drop_append_of_le_length (by omega),
    List.drop_eq_nil_of_le (by omega), List.nil_append]
  have hlen' : (hdr ++ (pw ++ [b])).length = pw.length + 6 := by
    rw [← List.append_assoc]; exact hlen
  rw [hlen']
  have : pw.length + 6 - 1 - 5 = pw.length := by omega
  rw [this, List.take_append_of_le_length (by omega), List.take_of_length_le (by omega)]

/-- C10: `extractPassword` bounds.  For every message of the form
5-byte header ++ password ++ trailing byte (so length ≥ 6) the function
returns exactly the bytes strictly between header and trailing NUL; and
the authenticators' guard checks only the type byte, so the 5-byte
message `['p',0,0,0,4]` passes the guard yet drives the slice
expression out of range (the error branch of the embedding is
reachable). -/
theorem extractPassword_bounds :
    (∀ (hdr pw : List Byte) (b : Byte), hdr.length = 5 →
      extractPassword (hdr ++ pw ++ [b]) = some pw) ∧
    passwordMsgGuard [112, 0, 0, 0, 4] = true ∧
    extractPassword [112, 0, 0, 0, 4] = none := by
  refine ⟨extractPassword_concat, by decide, by decide⟩

/-- Witness for C10 at the concrete password message
`['p', 0,0,0,9, 't','e','s', 0]`. -/
theorem extractPassword_bounds_witness :
    extractPassword ([112, 0, 0, 0, 9] ++ [116, 101, 115] ++ [0]) =
      some [116, 101, 115] ∧
    passwordMsgGuard [112, 0, 0, 0, 4] = true ∧
    extractPassword [112, 0, 0, 0, 4] = none := by
  exact ⟨extractPassword_bounds.1 [112, 0, 0, 0, 9] [116, 101, 115] 0 (by decide),
    extractPassword_bounds.2.1, extractPassword_bounds.2.2⟩

/-- C3 (code divergence): for every error the simple-query path
produces (parser, Queryer or Execer failure surfaced by `s.query`), the
`'Q'` branch of `handleFrontendMessage` responds with `ParseComplete` —
not an ErrorResponse — and the write loop clears the error, so no
ErrorResponse built from the error ever reaches the client for the
failing statement. -/
theorem simple_query_error_sends_parse_complete (e : GoErr) :
    handleQueryMessage (some e) = ([parseCompleteMsg], none) ∧
    Message.isErrorMsg parseCompleteMsg = false := by
  exact ⟨rfl, by decide⟩

/-- C8 (code divergence): with live sessions registered at pids 5 and 7
and the random draw landing on 5, the probe loop terminates at pid 7 —
one past the first free pid 6, which it skipped without checking — and
pid 7 is already occupied, so the new session is registered over an
existing one.  The loop also probes sequentially (`pid++`) instead of
re-drawing random integers. -/
theorem pid_generation_collision :
    generatePid (fun n => n == 5 || n == 7) 10 5 = some 7 ∧
    (fun n => n == 5 || n == 7) 7 = true ∧
    (fun n => n == 5 || n == 7) 6 = false := by
  refine ⟨by decide, by decide, by decide⟩

/-- C6: the MD5 authentication scheme.  (1) For every username,
password and salt, the hash the server expects from the client is
exactly the spec formula `"md5" || lowerhex(md5(lowerhex(md5(password
|| username)) || salt))`; (2) for user "postgres", password "test" and
salt [196,53,49,235] the expected value is the 35 ASCII bytes
`"md5aa3f8b87a934a45044e1fb2d9070cb80"`; (3) for that user, password
and salt the authenticator's comparison accepts a well-formed password
message iff its password field carries exactly those bytes. -/
theorem md5_auth_scheme :
    (∀ user password salt : List Byte,
      hashWithSalt (md5GetPassword password user) salt =
        specMd5Expected user password salt) ∧
    hashWithSalt
        (md5GetPassword [116, 101, 115, 116]
          [112, 111, 115, 116, 103, 114, 101, 115])
        [196, 53, 49, 235] = md5ExpectedPostgresTest ∧
    (∀ (h pw : List Byte), h.length = 4 →
      (md5AuthAccepts [112, 111, 115, 116, 103, 114, 101, 115]
          [116, 101, 115, 116] [196, 53, 49, 235]
          (112 :: (h ++ pw ++ [0])) = true ↔
        pw = md5ExpectedPostgresTest)) := by
  have hval : hashWithSalt
      (md5GetPassword [116, 101, 115, 116]
        [112, 111, 115, 116, 103, 114, 101, 115])
      [196, 53, 49, 235] = md5ExpectedPostgresTest := by decide
  refine ⟨fun u p s => rfl, hval, ?_⟩
  intro h pw hh
  unfold md5AuthAccepts
  have hext : extractPassword (112 :: (h ++ pw ++ [0])) = some pw := by
    have hsplit : (112 : Byte) :: (h ++ pw ++ [0]) = (112 :: h) ++ pw ++ [0] := by
      simp
    rw [hsplit]
    exact extractPassword_concat (112 :: h) pw 0 (by simp [hh])
  rw [hext]
  have hguard : passwordMsgGuard (112 :: (h ++ pw ++ [0])) = true := rfl
  rw [hguard, hval]
  simp only [Bool.true_and, beq_iff_eq]

/-- Witness for C6: the authenticator accepts the password message
whose field is exactly the expected 35-byte hash. -/
theorem md5_auth_scheme_witness :
    md5AuthAccepts [112, 111, 115, 116, 103, 114, 101, 115]
      [116, 101, 115, 116] [196, 53, 49, 235]
      (112 :: ([0, 0, 0, 40] ++ md5ExpectedPostgresTest ++ [0])) = true :=
  (md5_auth_scheme.2.2 [0, 0, 0, 40] md5ExpectedPostgresTest (by decide)).mpr rfl

end PgSrv
